import Mathlib

/-!
Verification of the category tree flattening and selection core of the
clicount questionnaire tool (`main.py`), together with its flat-file
store.  The Python functions `process_yaml_dict`, `load_categories`,
`flatten_categories`, `get_category_value` and `save_to_csv` are embedded
shallowly: YAML/Python values become the inductive `PyVal` (scalar
strings, `None`, lists, insertion-ordered dicts with string keys, the
shape the spec's data model prescribes), fallible code returns `Except`,
and the interactive selector loop consumes an explicit list of input
lines.
-/

namespace Clicount

instance {ε α : Type} [DecidableEq ε] [DecidableEq α] : DecidableEq (Except ε α) := fun x y =>
  match x, y with
  | Except.error a, Except.error b =>
    if h : a = b then Decidable.isTrue (by rw [h])
    else Decidable.isFalse (by intro hc; injection hc; contradiction)
  | Except.error _, Except.ok _ => Decidable.isFalse (by intro hc; exact Except.noConfusion hc)
  | Except.ok _, Except.error _ => Decidable.isFalse (by intro hc; exact Except.noConfusion hc)
  | Except.ok a, Except.ok b =>
    if h : a = b then Decidable.isTrue (by rw [h])
    else Decidable.isFalse (by intro hc; injection hc; contradiction)

/-- A generic Python/YAML value as handled by `main.py`: `None`, a string
scalar, a list, or a dict.  Dicts are modelled as insertion-ordered
association lists with string keys, matching the spec's data model
(`Mapping: ordered list of (string, Node)`). -/
inductive PyVal where
  | none : PyVal
  | str : String → PyVal
  | list : List PyVal → PyVal
  | dict : List (String × PyVal) → PyVal

/-- Python truthiness (`if not category_dict`): `None`, `""`, `[]` and
`{}` are falsy. -/
def pyTruthy : PyVal → Bool
  | PyVal.none => false
  | PyVal.str s => !s.data.isEmpty
  | PyVal.list l => !l.isEmpty
  | PyVal.dict d => !d.isEmpty

/-- Lexicographic comparison of character lists by code point, the order
CPython uses to compare strings. -/
def charListLe : List Char → List Char → Bool
  | [], _ => true
  | _ :: _, [] => false
  | a :: as, b :: bs =>
    if a.toNat < b.toNat then true
    else if b.toNat < a.toNat then false
    else charListLe as bs

/-- Comparison `a <= b` on Python strings. -/
def strLe (a b : String) : Bool :=
  charListLe a.data b.data

/-- Comparison `a <= b` on Python strings, as a proposition. -/
def strLeP (a b : String) : Prop :=
  strLe a b = true

instance : DecidableRel strLeP := fun a b =>
  inferInstanceAs (Decidable (strLe a b = true))

/-- The check `isinstance(v, dict)`. -/
def isDict : PyVal → Bool
  | PyVal.dict _ => true
  | _ => false

/-- The check `isinstance(v, list)`. -/
def isList : PyVal → Bool
  | PyVal.list _ => true
  | _ => false

/-- Python `repr` of a string: wrapped in single quotes, or double quotes
when the string contains a single quote but no double quote; backslashes,
the quote character, and the common control characters are escaped.
(CPython additionally escapes other non-printable characters; none of the
strings this program manipulates contain any.) -/
def pyReprStr (s : String) : String :=
  let squote : Char := Char.ofNat 39
  let q : Char := if s.data.contains squote && !s.data.contains '"' then '"' else squote
  let esc : Char → String := fun c =>
    if c = '\\' then "\\\\"
    else if c = q then "\\" ++ String.mk [c]
    else if c = '\n' then "\\n"
    else if c = '\r' then "\\r"
    else if c = '\t' then "\\t"
    else String.mk [c]
  String.mk [q] ++ String.join (s.data.map esc) ++ String.mk [q]

mutual

/-- Python `repr` on the values of `PyVal` (for `str()` of containers). -/
def pyRepr : PyVal → String
  | PyVal.none => "None"
  | PyVal.str s => pyReprStr s
  | PyVal.list l => "[" ++ String.intercalate ", " (pyReprList l) ++ "]"
  | PyVal.dict d => "\x7b" ++ String.intercalate ", " (pyReprPairs d) ++ "\x7d"

def pyReprList : List PyVal → List String
  | [] => []
  | v :: vs => pyRepr v :: pyReprList vs

def pyReprPairs : List (String × PyVal) → List String
  | [] => []
  | (k, v) :: ps => (pyReprStr k ++ ": " ++ pyRepr v) :: pyReprPairs ps

end

/-- Python `str()` as used by f-string interpolation (`f"{prefix}.{item}"`):
identity on strings, `repr` on containers, `"None"` on `None`. -/
def pyStrOf : PyVal → String
  | PyVal.str s => s
  | v => pyRepr v

/-- Python `sorted(list(set(l)))` on a list of strings: the unique ascending
enumeration of the distinct elements (the hash order in which CPython
enumerates the set is irrelevant, because sorting distinct elements
under a total antisymmetric order has a unique result). -/
def pySortedSet (l : List String) : List String :=
  List.insertionSort strLeP l.dedup

/-- Project a `PyVal` scalar string. -/
def asStr : PyVal → Option String
  | PyVal.str s => Option.some s
  | _ => Option.none

/-- The underlying strings of a list of values, provided every element
is a string scalar. -/
def strsOf : List PyVal → Option (List String)
  | [] => Option.some []
  | v :: vs =>
    match asStr v, strsOf vs with
    | Option.some s, Option.some ss => Option.some (s :: ss)
    | _, _ => Option.none

/-- Python `sorted(list(set(processed)))` inside `load_categories`, where
`processed` is a heterogeneous Python list.  If every element is a string
the result is the sorted deduplicated list; otherwise CPython's `sorted`
raises `TypeError` (in `load_categories`, a non-string element of
`processed` — only producible by `process_yaml_dict` under an
empty-string mapping key — always coexists with the string key appended
before it, so with two or more distinct elements a str/non-str comparison
is unavoidable; the `TypeError` is not caught and propagates).  Because
deduplication preserves whether every element is a string, checking
string-ness before deduplicating is equivalent to CPython's
set-then-sort order. -/
def pySortedSetVals (l : List PyVal) : Except String (List String) :=
  match strsOf l with
  | Option.some ss => Except.ok (pySortedSet ss)
  | Option.none =>
    Except.error "TypeError: sort comparison between str and non-str"

mutual

/-- The function `process_yaml_dict(data, prefix)` from `main.py` lines 91-112:
expands a nested YAML structure into dot-notation paths.  With an empty
prefix a non-dict list item is appended raw (hence `List PyVal`);
non-list, non-dict data contributes nothing. -/
def process_yaml_dict (data : PyVal) (pfx : String) : List PyVal :=
  match data with
  | PyVal.list items => processYamlItems items pfx
  | PyVal.dict pairs => processYamlPairs pairs pfx
  | _ => []

/-- The `for item in data` loop of `process_yaml_dict` over a list. -/
def processYamlItems (items : List PyVal) (pfx : String) : List PyVal :=
  match items with
  | [] => []
  | item :: rest =>
    (match item with
     | PyVal.dict pairs => processYamlPairs pairs pfx
     | _ =>
       [if pfx ≠ "" then PyVal.str (pfx ++ "." ++ pyStrOf item) else item]) ++
    processYamlItems rest pfx

/-- The `for key, value in ...items()` loop of `process_yaml_dict`:
append `key_path`, then recurse into the value rooted at `key_path`. -/
def processYamlPairs (pairs : List (String × PyVal)) (pfx : String) : List PyVal :=
  match pairs with
  | [] => []
  | (key, value) :: rest =>
    let keyPath := if pfx ≠ "" then pfx ++ "." ++ key else key
    (PyVal.str keyPath :: process_yaml_dict value keyPath) ++
    processYamlPairs rest pfx

end

/-- The `for key, value in item.items()` loop inside `load_categories`
(lines 136-138): append the key, then the expansion of its value rooted
at the key. -/
def loadCategoryPairs : List (String × PyVal) → List PyVal
  | [] => []
  | (key, value) :: rest =>
    (PyVal.str key :: process_yaml_dict value key) ++ loadCategoryPairs rest

/-- The `for item in items` loop of `load_categories` (lines 130-138):
strings are kept, dict items contribute their keys plus the expansion of
their values, everything else is skipped. -/
def loadCategoryItems : List PyVal → List PyVal
  | [] => []
  | item :: rest =>
    (match item with
     | PyVal.str s => [PyVal.str s]
     | PyVal.dict pairs => loadCategoryPairs pairs
     | _ => []) ++ loadCategoryItems rest

/-- The `for category, items in data.items()` loop of `load_categories`
(lines 126-142): non-list values are skipped, a category whose
`processed` list is empty is omitted, otherwise the sorted deduplicated
list is stored under the category name. -/
def normalizePairs : List (String × PyVal) → Except String (List (String × List String))
  | [] => Except.ok []
  | (category, items) :: rest =>
    match items with
    | PyVal.list its =>
      if (loadCategoryItems its).isEmpty then normalizePairs rest
      else
        match pySortedSetVals (loadCategoryItems its) with
        | Except.error e => Except.error e
        | Except.ok sortedList =>
          match normalizePairs rest with
          | Except.error e => Except.error e
          | Except.ok restResult => Except.ok ((category, sortedList) :: restResult)
    | _ => normalizePairs rest

/-- The body of `load_categories` after deserialization (`normalize` in
the spec, lines 122-143 of `main.py`): a non-dict tree yields the empty
Category Set. -/
def normalizeData (data : PyVal) : Except String (List (String × List String)) :=
  match data with
  | PyVal.dict pairs => normalizePairs pairs
  | _ => Except.ok []

/-- The function `load_categories` (lines 114-145): `Option.none` models a missing
file or a `yaml.YAMLError` on deserialization, both of which yield the
empty Category Set; otherwise the deserialized tree is normalized. -/
def load_categories (parsed : Option PyVal) : Except String (List (String × List String)) :=
  match parsed with
  | Option.none => Except.ok []
  | Option.some data => normalizeData data

/-- One step of the `for item in values` loop of `flatten_categories`
(lines 159-172): a dotted string passes through, a plain string is
prefixed, a list attaches its children to the last appended entry
(`result[-1]`) when the accumulator is non-empty, anything else is
ignored. -/
def flattenItem (res : List String) (pfx : String) (item : PyVal) : List String :=
  match item with
  | PyVal.str s =>
    if s.data.contains '.' then res ++ [s]
    else res ++ [if pfx ≠ "" then pfx ++ "." ++ s else s]
  | PyVal.list children =>
    if res.isEmpty then res
    else res ++ children.map (fun child => res.getLastD "" ++ "." ++ pyStrOf child)
  | _ => res

/-- The `for item in values` loop of `flatten_categories`. -/
def flattenValues (res : List String) (pfx : String) : List PyVal → List String
  | [] => res
  | item :: rest => flattenValues (flattenItem res pfx item) pfx rest

/-- The `for key, values in category_dict.items()` loop of
`flatten_categories`: non-list values are skipped; the accumulator `res`
is shared across all categories. -/
def flattenPairs (res : List String) (pfx : String) : List (String × PyVal) → List String
  | [] => res
  | (_, values) :: rest =>
    match values with
    | PyVal.list vs => flattenPairs (flattenValues res pfx vs) pfx rest
    | _ => flattenPairs res pfx rest

/-- The function `flatten_categories(category_dict, prefix, result)` (lines 147-174):
a falsy argument returns the accumulator unchanged; `.items()` on a
truthy non-dict raises `AttributeError`; otherwise the shared accumulator
is filled category by category and returned deduplicated and sorted. -/
def flatten_categories (category_dict : PyVal) (pfx : String) (res : List String) :
    Except String (List String) :=
  if pyTruthy category_dict = false then Except.ok res
  else
    match category_dict with
    | PyVal.dict pairs => Except.ok (pySortedSet (flattenPairs res pfx pairs))
    | _ => Except.error "AttributeError"

/-- The function `flatten_categories` as it is always invoked in the repository:
default `prefix=''` and `result=None` (fresh empty accumulator). -/
def flattenCats (category_dict : PyVal) : Except String (List String) :=
  flatten_categories category_dict "" []

/-- Modelled from the spec's words, for comparison with the code:
"`-> CategorySet` (when invoked across multiple categories, each
flattened independently and merged key-wise)" — every category's list is
flattened with its own fresh empty accumulator and the per-category
results are merged key-wise into a mapping (non-list values yield the
empty list, per the spec's return-value clause). -/
def specFlattenCategorySet (pairs : List (String × PyVal)) : List (String × List String) :=
  pairs.map (fun p =>
    (p.1,
      match p.2 with
      | PyVal.list vs => pySortedSet (flattenValues [] "" vs)
      | _ => []))

/-- Characters stripped by Python `str.strip()` with no argument (the
ASCII whitespace; other Unicode whitespace does not occur here). -/
def isPyWs (c : Char) : Bool :=
  c = ' ' || c = '\t' || c = '\n' || c = '\r' || c = Char.ofNat 11 || c = Char.ofNat 12

/-- Digit tail of a Python integer literal after its first digit:
`digit (underscore? digit)*` with the accumulated value. -/
def goDigits (acc : Nat) : List Char → Option Nat
  | [] => Option.some acc
  | c :: cs =>
    if c.isDigit then goDigits (acc * 10 + (c.toNat - 48)) cs
    else if c = '_' then
      match cs with
      | c2 :: cs2 =>
        if c2.isDigit then goDigits (acc * 10 + (c2.toNat - 48)) cs2
        else Option.none
      | [] => Option.none
    else Option.none

/-- An unsigned Python integer body: at least one digit, with single
underscores allowed between digits. -/
def parseUnsigned (cs : List Char) : Option Nat :=
  match cs with
  | [] => Option.none
  | c :: rest => if c.isDigit then goDigits (c.toNat - 48) rest else Option.none

/-- Python `int(line)` on a string: whitespace is stripped from both
ends, then an optional sign is followed by a digit sequence; anything
else raises `ValueError` (modelled as `Option.none`). -/
def pyParseInt (s : String) : Option Int :=
  let cs := (s.data.dropWhile isPyWs).reverse.dropWhile isPyWs |>.reverse
  match cs with
  | [] => Option.none
  | c :: rest =>
    if c = '+' then (parseUnsigned rest).map Int.ofNat
    else if c = '-' then (parseUnsigned rest).map (fun n => -(Int.ofNat n))
    else (parseUnsigned cs).map Int.ofNat

/-- A diagnostic printed by the selector loop of `get_category_value`:
`"Please enter a valid number."` on a `ValueError`, `"Invalid choice.
Please try again."` on an out-of-range ordinal. -/
inductive Diag where
  | notANumber : Diag
  | invalidChoice : Diag
deriving DecidableEq

/-- The `while True` selector loop of `get_category_value` (lines
319-330), consuming one input line per iteration: a line that fails
integer parsing or is out of range `[1, len]` emits a diagnostic and
loops; an in-range choice returns `flat_categories[choice - 1]`.  The
result pairs the diagnostics emitted with the selected path
(`Option.none` when the supplied input lines run out). -/
def selectLoop (flatPaths : List String) : List String → List Diag × Option String
  | [] => ([], Option.none)
  | line :: rest =>
    match pyParseInt line with
    | Option.none =>
      let r := selectLoop flatPaths rest
      (Diag.notANumber :: r.1, r.2)
    | Option.some choice =>
      if 1 ≤ choice ∧ choice ≤ (flatPaths.length : Int) then
        ([], flatPaths.get? (choice - 1).toNat)
      else
        let r := selectLoop flatPaths rest
        (Diag.invalidChoice :: r.1, r.2)

/-- The function `get_category_value(header, categories)` (lines 312-330) with the
interactive input stream made explicit: `None` when the header has no
category entry, otherwise the selector loop over the flattened list of
that single category. -/
def get_category_value (header : String) (categories : List (String × PyVal))
    (inputs : List String) : Except String (List Diag × Option String) :=
  match categories.lookup header with
  | Option.none => Except.ok ([], Option.none)
  | Option.some v => do
    let flat ← flatten_categories (PyVal.dict [(header, v)]) "" []
    Except.ok (selectLoop flat inputs)

/-- Python `"%0wd" % n` (used by `strftime` for each component): the
decimal digits of `n`, left-padded with zeros to width `w`. -/
def padNum (w : Nat) (n : Nat) : List Char :=
  List.replicate (w - (Nat.toDigits 10 n).length) '0' ++ Nat.toDigits 10 n

/-- Python `datetime.strftime("%Y-%m-%d %H:%M:%S")` on a clock reading with the
given components. -/
def formatTimestamp (y mo d h mi s : Nat) : String :=
  String.mk (padNum 4 y ++ ['-'] ++ padNum 2 mo ++ ['-'] ++ padNum 2 d ++ [' '] ++
    padNum 2 h ++ [':'] ++ padNum 2 mi ++ [':'] ++ padNum 2 s)

/-- The components of a `datetime.now()` clock reading. -/
structure Clock where
  year : Nat
  month : Nat
  day : Nat
  hour : Nat
  minute : Nat
  second : Nat
deriving DecidableEq

/-- Python `datetime.now().strftime("%Y-%m-%d %H:%M:%S")` on a clock reading. -/
def fmtClock (c : Clock) : String :=
  formatTimestamp c.year c.month c.day c.hour c.minute c.second

/-- Ranges the `datetime` components always satisfy (each component fits
its `strftime` field width; `datetime` years are between 1 and 9999 and
the other components are two digits at most). -/
def clockBounds (c : Clock) : Prop :=
  c.year < 10000 ∧ c.month < 100 ∧ c.day < 100 ∧ c.hour < 100 ∧
    c.minute < 100 ∧ c.second < 100

instance (c : Clock) : Decidable (clockBounds c) :=
  inferInstanceAs (Decidable (_ ∧ _ ∧ _ ∧ _ ∧ _ ∧ _))

/-- The shape "YYYY-MM-DD HH:MM:SS": four digit characters, a hyphen,
two digits, a hyphen, two digits, a space, two digits, a colon, two
digits, a colon, two digits. -/
def timestampFormatted (s : String) : Prop :=
  ∃ y mo d h mi sec : List Char,
    s.data = y ++ '-' :: (mo ++ '-' :: (d ++ ' ' :: (h ++ ':' :: (mi ++ ':' :: sec)))) ∧
    y.length = 4 ∧ mo.length = 2 ∧ d.length = 2 ∧ h.length = 2 ∧ mi.length = 2 ∧
    sec.length = 2 ∧
    (∀ c, (c ∈ y ∨ c ∈ mo ∨ c ∈ d ∨ c ∈ h ∨ c ∈ mi ∨ c ∈ sec) → c.isDigit = true)

/-- A field needs quoting under the `csv` module's default excel dialect
(QUOTE_MINIMAL): it contains the delimiter, the quote character, or a
line-terminator character. -/
def csvNeedsQuote (s : String) : Bool :=
  s.data.contains ',' || s.data.contains '"' || s.data.contains '\r' || s.data.contains '\n'

/-- Quote a CSV field: wrap in double quotes, doubling embedded double
quotes (the default `doublequote=True` behavior). -/
def csvQuote (s : String) : String :=
  "\"" ++ String.join (s.data.map
    (fun c => if c = '"' then "\"\"" else String.mk [c])) ++ "\""

/-- Render one CSV field under the default dialect. -/
def csvField (s : String) : String :=
  if csvNeedsQuote s then csvQuote s else s

/-- Python `csv.writer(...).writerow(fields)`: comma-joined fields followed by
the default `\r\n` line terminator (the file is opened with
`newline=''`, so no further translation occurs). -/
def csvRow (fields : List String) : String :=
  String.intercalate "," (fields.map csvField) ++ "\r\n"

/-- The trailing-newline repair step of `save_to_csv` (lines 246-256): a
non-empty existing file whose last character is not a newline gets one
appended. -/
def repairNewline (content : String) : String :=
  match content.data.getLast? with
  | Option.some c => if c ≠ '\n' then content ++ "\n" else content
  | Option.none => content

/-- The function `save_to_csv(filename, headers, answers)` (lines 239-263) as a
transformer of the file contents: `Option.none` models a file that does
not exist.  The timestamp string is a parameter (the clock reading
rendered by `formatTimestamp`).  A new file receives the header row
`Timestamp :: headers` followed by the data row; an existing file is
newline-repaired and receives only the data row. -/
def save_to_csv (file : Option String) (ts : String) (headers answers : List String) :
    String :=
  match file with
  | Option.none => csvRow ("Timestamp" :: headers) ++ csvRow (ts :: answers)
  | Option.some content => repairNewline content ++ csvRow (ts :: answers)

/-- A sequence of `save_to_csv` calls against the same file, each with
its own timestamp and answers; the state is the file contents. -/
def saveSeq (headers : List String) :
    Option String → List (String × List String) → Option String
  | st, [] => st
  | st, (ts, ans) :: rest =>
    saveSeq headers (Option.some (save_to_csv st ts headers ans)) rest

/-- The concatenation of the data rows of a save sequence. -/
def concatRows : List (String × List String) → String
  | [] => ""
  | r :: rest => csvRow (r.1 :: r.2) ++ concatRows rest

/-! ### Order facts for the string comparison -/

theorem charListLe_total : ∀ as bs : List Char, charListLe as bs = true ∨ charListLe bs as = true := by
  intro as
  induction as with
  | nil => intro bs; left; rfl
  | cons a as ih =>
    intro bs
    cases bs with
    | nil => right; rfl
    | cons b bs =>
      by_cases hab : a.toNat < b.toNat
      · left; simp [charListLe, hab]
      · by_cases hba : b.toNat < a.toNat
        · right; simp [charListLe, hba]
        · rcases ih bs with h | h
          · left; simp [charListLe, hab, hba, h]
          · right; simp [charListLe, hab, hba, h]

theorem charListLe_trans : ∀ as bs cs : List Char, charListLe as bs = true →
    charListLe bs cs = true → charListLe as cs = true := by
  intro as
  induction as with
  | nil => intro bs cs _ _; rfl
  | cons a as ih =>
    intro bs cs h1 h2
    cases bs with
    | nil => simp [charListLe] at h1
    | cons b bs =>
      cases cs with
      | nil => simp [charListLe] at h2
      | cons c cs =>
        simp only [charListLe] at h1 h2 ⊢
        by_cases hab : a.toNat < b.toNat
        · by_cases hbc : b.toNat < c.toNat
          · have hac : a.toNat < c.toNat := Nat.lt_trans hab hbc
            simp [hac]
          · by_cases hcb : c.toNat < b.toNat
            · simp [hbc, hcb] at h2
            · have hac : a.toNat < c.toNat := by omega
              simp [hac]
        · by_cases hba : b.toNat < a.toNat
          · simp [hab, hba] at h1
          · simp [hab, hba] at h1
            by_cases hbc : b.toNat < c.toNat
            · have hac : a.toNat < c.toNat := by omega
              simp [hac]
            · by_cases hcb : c.toNat < b.toNat
              · simp [hbc, hcb] at h2
              · simp [hbc, hcb] at h2
                have hac : ¬a.toNat < c.toNat := by omega
                have hca : ¬c.toNat < a.toNat := by omega
                simp [hac, hca]
                exact ih bs cs h1 h2

instance : IsTotal String strLeP :=
  ⟨fun a b => charListLe_total a.data b.data⟩

instance : IsTrans String strLeP :=
  ⟨fun a b c => charListLe_trans a.data b.data c.data⟩

/-! ### Facts about `pySortedSet` -/

theorem pySortedSet_sorted (l : List String) : List.Sorted strLeP (pySortedSet l) :=
  List.sorted_insertionSort strLeP l.dedup

theorem pySortedSet_nodup (l : List String) : (pySortedSet l).Nodup :=
  (List.perm_insertionSort strLeP l.dedup).nodup_iff.mpr l.nodup_dedup

theorem pySortedSet_ne_nil (l : List String) (h : l ≠ []) : pySortedSet l ≠ [] := by
  intro hnil
  have hperm := List.perm_insertionSort strLeP l.dedup
  rw [pySortedSet] at hnil
  rw [hnil] at hperm
  exact h ((List.dedup_eq_nil l).mp hperm.symm.eq_nil)

/-! ### Shape of the lists stored by the normalizer -/

theorem strsOf_length : ∀ l ss, strsOf l = Option.some ss → ss.length = l.length := by
  intro l
  induction l with
  | nil => intro ss h; cases h; rfl
  | cons v vs ih =>
    intro ss h
    cases hv : asStr v with
    | none => simp [strsOf, hv] at h
    | some s =>
      cases hvs : strsOf vs with
      | none => simp [strsOf, hv, hvs] at h
      | some ss2 =>
        simp only [strsOf, hv, hvs] at h
        cases h
        simp [ih ss2 hvs]

/-- Every list stored in the Category Set built by `normalizePairs` is
`sorted(list(set(ss)))` of a non-empty list of strings. -/
theorem normalizePairs_mem : ∀ ps m, normalizePairs ps = Except.ok m →
    ∀ c pl, (c, pl) ∈ m → ∃ ss, ss ≠ [] ∧ pl = pySortedSet ss := by
  intro ps
  induction ps with
  | nil =>
    intro m h c pl hm
    cases h
    simp at hm
  | cons p rest ih =>
    intro m h c pl hm
    obtain ⟨category, items⟩ := p
    cases items with
    | list its =>
      simp only [normalizePairs] at h
      by_cases he : (loadCategoryItems its).isEmpty
      · rw [if_pos he] at h
        exact ih m h c pl hm
      · rw [if_neg he] at h
        cases hs : pySortedSetVals (loadCategoryItems its) with
        | error e => rw [hs] at h; cases h
        | ok sl =>
          rw [hs] at h
          cases hr : normalizePairs rest with
          | error e => rw [hr] at h; cases h
          | ok rm =>
            rw [hr] at h
            injection h with h2
            subst h2
            rcases List.mem_cons.mp hm with heq | hmem
            · cases heq
              rw [pySortedSetVals] at hs
              cases hss : strsOf (loadCategoryItems its) with
              | none => rw [hss] at hs; cases hs
              | some ss =>
                rw [hss] at hs
                injection hs with hs2
                refine ⟨ss, ?_, hs2.symm⟩
                intro hnil
                have := strsOf_length _ _ hss
                rw [hnil] at this
                simp only [List.length_nil] at this
                exact he (by
                  have : loadCategoryItems its = [] := List.length_eq_zero.mp this.symm
                  simp [this])
            · exact ih rm hr c pl hmem
    | none => exact ih m (by simpa [normalizePairs] using h) c pl hm
    | str s => exact ih m (by simpa [normalizePairs] using h) c pl hm
    | dict d2 => exact ih m (by simpa [normalizePairs] using h) c pl hm

/-- A `flatten_categories` call over a dict all of whose values are
non-lists leaves the accumulator untouched. -/
theorem flattenPairs_all_nonlist : ∀ pairs : List (String × PyVal),
    (∀ p ∈ pairs, isList p.2 = false) → ∀ res pfx, flattenPairs res pfx pairs = res := by
  intro pairs
  induction pairs with
  | nil => intro _ res pfx; rfl
  | cons p rest ih =>
    intro h res pfx
    obtain ⟨k, v⟩ := p
    cases v with
    | list vs =>
      have := h (k, PyVal.list vs) (List.mem_cons_self _ _)
      simp [isList] at this
    | none => exact ih (fun q hq => h q (List.mem_cons_of_mem _ hq)) res pfx
    | str s => exact ih (fun q hq => h q (List.mem_cons_of_mem _ hq)) res pfx
    | dict d2 => exact ih (fun q hq => h q (List.mem_cons_of_mem _ hq)) res pfx

/-! ### Claims -/

/-- C3: `normalize` on the deep tree
`{"Category": ["food", {"entertainment": ["movie", {"magazine": ["Linux Format"]}]}]}`
returns exactly
`["entertainment", "entertainment.magazine", "entertainment.magazine.Linux Format", "entertainment.movie", "food"]`
for the key `"Category"`: every mapping key is appended, every descendant
is expanded to a dot-joined path rooted at that key, and the result is
deduplicated and sorted. -/
theorem normalize_deep_mapping_expansion :
    normalizeData (PyVal.dict [("Category", PyVal.list [PyVal.str "food",
      PyVal.dict [("entertainment", PyVal.list [PyVal.str "movie",
        PyVal.dict [("magazine", PyVal.list [PyVal.str "Linux Format"])]])]])]) =
    Except.ok [("Category", ["entertainment", "entertainment.magazine",
      "entertainment.magazine.Linux Format", "entertainment.movie", "food"])] := by
  decide

/-- C4: flattening a single category whose list holds a plain string
followed by a sublist of strings attaches each sublist element as a
child of the immediately preceding appended entry:
`flatten({"C": ["transport", ["taxi","train"]]})` returns exactly
`["transport", "transport.taxi", "transport.train"]`. -/
theorem flatten_adjacency_attachment :
    flattenCats (PyVal.dict [("C", PyVal.list [PyVal.str "transport",
      PyVal.list [PyVal.str "taxi", PyVal.str "train"]])]) =
    Except.ok ["transport", "transport.taxi", "transport.train"] := by
  decide

/-- C5: when the first list element of a single-category input is itself
a list, no preceding entry exists and the children are silently dropped:
`flatten({"C": [["x","y"]]})` returns exactly the empty list. -/
theorem flatten_orphan_sublist :
    flattenCats (PyVal.dict [("C", PyVal.list [PyVal.list [PyVal.str "x",
      PyVal.str "y"]])]) = Except.ok [] := by
  decide

/-- C8: a tree that fails to deserialize yields the empty Category Set,
and so does every tree whose top level is not a Mapping (including
`None`); a Mapping with non-list values such as `{"C": "not a list"}`
also yields the empty Category Set; none of these fails with an error. -/
theorem normalize_empty_on_invalid :
    load_categories Option.none = Except.ok [] ∧
    (∀ t, isDict t = false → normalizeData t = Except.ok []) ∧
    normalizeData (PyVal.dict [("C", PyVal.str "not a list")]) = Except.ok [] := by
  refine ⟨rfl, ?_, by decide⟩
  intro t h
  cases t with
  | dict pairs => simp [isDict] at h
  | none => rfl
  | str s => rfl
  | list l => rfl

/-- Witness for C8 at a concrete non-Mapping tree. -/
theorem normalize_empty_on_invalid_witness :
    normalizeData (PyVal.str "oops") = Except.ok [] :=
  normalize_empty_on_invalid.2.1 (PyVal.str "oops") rfl

/-- C10: every category name that appears as a key in the Category Set
built by `normalize` maps to a non-empty list: a category whose list
value yields no usable entries is omitted entirely rather than mapped to
an empty list. -/
theorem normalize_values_nonempty :
    ∀ t m, normalizeData t = Except.ok m → ∀ c pl, (c, pl) ∈ m → pl ≠ [] := by
  intro t m h c pl hm
  cases t with
  | dict pairs =>
    obtain ⟨ss, hne, rfl⟩ := normalizePairs_mem pairs m h c pl hm
    exact pySortedSet_ne_nil ss hne
  | none => injection h with h2; subst h2; cases hm
  | str s => injection h with h2; subst h2; cases hm
  | list l => injection h with h2; subst h2; cases hm

/-- Witness for C10 at a concrete tree. -/
theorem normalize_values_nonempty_witness : (["a"] : List String) ≠ [] :=
  normalize_values_nonempty (PyVal.dict [("C", PyVal.list [PyVal.str "a"])])
    [("C", ["a"])] (by decide) "C" ["a"] (by decide)

/-- C6: every path list produced by `flatten` (as invoked, with a fresh
accumulator) and every path list stored by `normalize` is
lexicographically non-decreasing and free of duplicates. -/
theorem flatten_normalize_sorted_nodup :
    (∀ d l, flattenCats d = Except.ok l → List.Sorted strLeP l ∧ l.Nodup) ∧
    (∀ t m, normalizeData t = Except.ok m →
      ∀ c pl, (c, pl) ∈ m → List.Sorted strLeP pl ∧ pl.Nodup) := by
  constructor
  · intro d l h
    unfold flattenCats flatten_categories at h
    by_cases ht : pyTruthy d = false
    · rw [if_pos ht] at h
      injection h with h2
      subst h2
      exact ⟨List.sorted_nil, List.nodup_nil⟩
    · rw [if_neg ht] at h
      cases d with
      | dict pairs =>
        injection h with h2
        subst h2
        exact ⟨pySortedSet_sorted _, pySortedSet_nodup _⟩
      | none => cases h
      | str s => cases h
      | list l2 => cases h
  · intro t m h c pl hm
    cases t with
    | dict pairs =>
      obtain ⟨ss, _, rfl⟩ := normalizePairs_mem pairs m h c pl hm
      exact ⟨pySortedSet_sorted _, pySortedSet_nodup _⟩
    | none => injection h with h2; subst h2; cases hm
    | str s => injection h with h2; subst h2; cases hm
    | list l2 => injection h with h2; subst h2; cases hm

/-- Witness for C6 at concrete flatten and normalize runs. -/
theorem flatten_normalize_sorted_nodup_witness :
    (List.Sorted strLeP ["transport", "transport.taxi", "transport.train"] ∧
      (["transport", "transport.taxi", "transport.train"] : List String).Nodup) ∧
    (List.Sorted strLeP ["a"] ∧ (["a"] : List String).Nodup) :=
  ⟨flatten_normalize_sorted_nodup.1
      (PyVal.dict [("C", PyVal.list [PyVal.str "transport",
        PyVal.list [PyVal.str "taxi", PyVal.str "train"]])])
      ["transport", "transport.taxi", "transport.train"] (by decide),
    flatten_normalize_sorted_nodup.2
      (PyVal.dict [("C", PyVal.list [PyVal.str "a"])]) [("C", ["a"])] (by decide)
      "C" ["a"] (by decide)⟩

/-- C7: against a 3-element path list, the input line sequence
`["abc", "0", "99", "2"]` is consumed in full — the non-numeric line and
the two out-of-range lines each emit their diagnostic and re-prompt, as
the three-line prefix alone selects nothing — and the selector returns
the element at 1-indexed position 2, without raising. -/
theorem selector_retry_consumes_all :
    ∀ a b c : String,
      selectLoop [a, b, c] ["abc", "0", "99", "2"] =
        ([Diag.notANumber, Diag.invalidChoice, Diag.invalidChoice], Option.some b) ∧
      selectLoop [a, b, c] ["abc", "0", "99"] =
        ([Diag.notANumber, Diag.invalidChoice, Diag.invalidChoice], Option.none) :=
  fun _ _ _ => ⟨rfl, rfl⟩

/-- Counterexample to C1 as stated: on
`{"A": ["a"], "B": [["x"]]}` the code returns the single merged flat
list `["a", "a.x"]` — the leading sublist of category `"B"` attached to
the entry `"a"` produced for category `"A"` — whereas flattening each
category independently and merging key-wise would give
`{"A": ["a"], "B": []}`. -/
theorem flatten_not_independent :
    flattenCats (PyVal.dict [("A", PyVal.list [PyVal.str "a"]),
      ("B", PyVal.list [PyVal.list [PyVal.str "x"]])]) = Except.ok ["a", "a.x"] ∧
    specFlattenCategorySet [("A", PyVal.list [PyVal.str "a"]),
      ("B", PyVal.list [PyVal.list [PyVal.str "x"]])] = [("A", ["a"]), ("B", [])] := by
  exact ⟨by decide, by decide⟩

/-- C1 amended: invoked across multiple categories,
`flatten_categories` shares one output accumulator over all categories
in mapping order and returns a single merged flat sorted deduplicated
list (not a per-category mapping); in particular a leading sublist in a
later category attaches to the last entry appended for the earlier
category. -/
theorem flatten_shared_accumulator :
    (∀ (k1 k2 : String) (vs1 vs2 : List PyVal),
      flattenCats (PyVal.dict [(k1, PyVal.list vs1), (k2, PyVal.list vs2)]) =
        Except.ok (pySortedSet (flattenValues (flattenValues [] "" vs1) "" vs2))) ∧
    flattenCats (PyVal.dict [("A", PyVal.list [PyVal.str "a"]),
      ("B", PyVal.list [PyVal.list [PyVal.str "x"]])]) = Except.ok ["a", "a.x"] := by
  exact ⟨fun k1 k2 vs1 vs2 => rfl, by decide⟩

/-- Counterexample to C2 as stated: a truthy non-Mapping input does not
return an empty list — `.items()` raises `AttributeError`. -/
theorem flatten_nonmapping_raises :
    flattenCats (PyVal.str "x") = Except.error "AttributeError" := by
  decide

/-- C2 amended: `flatten` returns an empty list for `None`, for empty
(falsy) inputs of any kind, and for Mapping inputs none of whose values
are lists, but a truthy non-Mapping input raises `AttributeError`
instead of returning. -/
theorem flatten_safe_defaults :
    flattenCats PyVal.none = Except.ok [] ∧
    flattenCats (PyVal.dict []) = Except.ok [] ∧
    flattenCats (PyVal.str "") = Except.ok [] ∧
    flattenCats (PyVal.list []) = Except.ok [] ∧
    (∀ pairs : List (String × PyVal), (∀ p ∈ pairs, isList p.2 = false) →
      flattenCats (PyVal.dict pairs) = Except.ok []) ∧
    (∀ v, pyTruthy v = true → isDict v = false →
      flattenCats v = Except.error "AttributeError") := by
  refine ⟨rfl, rfl, rfl, rfl, ?_, ?_⟩
  · intro pairs h
    cases pairs with
    | nil => rfl
    | cons p rest =>
      unfold flattenCats flatten_categories
      rw [if_neg (by simp [pyTruthy])]
      show Except.ok (pySortedSet (flattenPairs [] "" (p :: rest))) = Except.ok []
      rw [flattenPairs_all_nonlist (p :: rest) h [] ""]
      rfl
  · intro v ht hd
    unfold flattenCats flatten_categories
    rw [if_neg (by simp [ht])]
    cases v with
    | dict pairs => simp [isDict] at hd
    | none => rfl
    | str s => rfl
    | list l => rfl

/-- Witness for C2 (amended) at concrete inputs. -/
theorem flatten_safe_defaults_witness :
    flattenCats (PyVal.dict [("C", PyVal.str "not a list")]) = Except.ok [] ∧
    flattenCats (PyVal.list [PyVal.str "z"]) = Except.error "AttributeError" :=
  ⟨flatten_safe_defaults.2.2.2.2.1 [("C", PyVal.str "not a list")] (by decide),
    flatten_safe_defaults.2.2.2.2.2 (PyVal.list [PyVal.str "z"]) (by decide) (by decide)⟩

/-! ### Decimal rendering and the timestamp shape -/

theorem digitChar_isDigit (m : Nat) (h : m < 10) : (Nat.digitChar m).isDigit = true := by
  interval_cases m <;> decide

theorem toDigitsCore_length_ge : ∀ (f n : Nat) (l : List Char),
    l.length ≤ (Nat.toDigitsCore 10 f n l).length := by
  intro f
  induction f with
  | zero => intro n l; simp [Nat.toDigitsCore]
  | succ f ih =>
    intro n l
    simp only [Nat.toDigitsCore]
    by_cases h : n / 10 = 0
    · simp [h]
    · rw [if_neg h]
      have := ih (n / 10) (Nat.digitChar (n % 10) :: l)
      simp only [List.length_cons] at this
      omega

theorem toDigits_length_pos (n : Nat) : 0 < (Nat.toDigits 10 n).length := by
  unfold Nat.toDigits
  simp only [Nat.toDigitsCore]
  by_cases h : n / 10 = 0
  · simp [h]
  · rw [if_neg h]
    have := toDigitsCore_length_ge n (n / 10) [Nat.digitChar (n % 10)]
    simp only [List.length_singleton] at this
    omega

theorem toDigitsCore_digits : ∀ (f n : Nat) (l : List Char),
    (∀ c ∈ l, c.isDigit = true) →
    ∀ c ∈ Nat.toDigitsCore 10 f n l, c.isDigit = true := by
  intro f
  induction f with
  | zero => intro n l hl; simpa [Nat.toDigitsCore] using hl
  | succ f ih =>
    intro n l hl
    have hd : (Nat.digitChar (n % 10)).isDigit = true :=
      digitChar_isDigit (n % 10) (Nat.mod_lt n (by norm_num))
    have hdl : ∀ c ∈ Nat.digitChar (n % 10) :: l, c.isDigit = true := by
      intro c hc
      rcases List.mem_cons.mp hc with rfl | hc2
      · exact hd
      · exact hl c hc2
    simp only [Nat.toDigitsCore]
    by_cases h : n / 10 = 0
    · rw [if_pos h]; exact hdl
    · rw [if_neg h]; exact ih (n / 10) _ hdl

theorem padNum_length (w n : Nat) (hw : 0 < w) (h : n < 10 ^ w) :
    (padNum w n).length = w := by
  unfold padNum
  rw [List.length_append, List.length_replicate]
  have h1 : (Nat.toDigits 10 n).length ≤ w := by
    unfold Nat.toDigits
    exact Nat.toDigitsCore_length 10 (by norm_num) (n + 1) n w h hw
  omega

theorem padNum_digits (w n : Nat) : ∀ c ∈ padNum w n, c.isDigit = true := by
  intro c hc
  unfold padNum at hc
  rcases List.mem_append.mp hc with h | h
  · rw [List.eq_of_mem_replicate h]; decide
  · unfold Nat.toDigits at h
    exact toDigitsCore_digits (n + 1) n [] (by simp) c h

theorem timestampFormatted_fmtClock (c : Clock) (hc : clockBounds c) :
    timestampFormatted (fmtClock c) := by
  obtain ⟨hy, hmo, hd, hh, hmi, hs⟩ := hc
  refine ⟨padNum 4 c.year, padNum 2 c.month, padNum 2 c.day, padNum 2 c.hour,
    padNum 2 c.minute, padNum 2 c.second, ?_, ?_, ?_, ?_, ?_, ?_, ?_, ?_⟩
  · show (formatTimestamp c.year c.month c.day c.hour c.minute c.second).data = _
    unfold formatTimestamp
    simp [List.append_assoc]
  · exact padNum_length 4 c.year (by norm_num) (by norm_num; exact hy)
  · exact padNum_length 2 c.month (by norm_num) (by norm_num; exact hmo)
  · exact padNum_length 2 c.day (by norm_num) (by norm_num; exact hd)
  · exact padNum_length 2 c.hour (by norm_num) (by norm_num; exact hh)
  · exact padNum_length 2 c.minute (by norm_num) (by norm_num; exact hmi)
  · exact padNum_length 2 c.second (by norm_num) (by norm_num; exact hs)
  · intro ch hch
    rcases hch with h | h | h | h | h | h <;> exact padNum_digits _ _ ch h

/-! ### The flat-file store -/

theorem csvRow_data_ne_nil (fields : List String) : (csvRow fields).data ≠ [] := by
  unfold csvRow
  rw [String.data_append]
  simp

theorem csvRow_last (fields : List String) :
    (csvRow fields).data.getLast? = Option.some '\n' := by
  unfold csvRow
  rw [String.data_append]
  rw [List.getLast?_append_of_ne_nil _ (show "\r\n".data ≠ [] by decide)]
  rfl

theorem repairNewline_ends (c : String) (h : c.data.getLast? = Option.some '\n') :
    repairNewline c = c := by
  unfold repairNewline
  rw [h]
  simp

theorem append_csvRow_last (c : String) (fields : List String) :
    (c ++ csvRow fields).data.getLast? = Option.some '\n' := by
  rw [String.data_append,
    List.getLast?_append_of_ne_nil _ (csvRow_data_ne_nil fields)]
  exact csvRow_last fields

theorem saveSeq_from_existing (headers : List String) :
    ∀ rows (c : String), c.data.getLast? = Option.some '\n' →
      saveSeq headers (Option.some c) rows = Option.some (c ++ concatRows rows) := by
  intro rows
  induction rows with
  | nil => intro c _; simp [saveSeq, concatRows, String.append_empty]
  | cons r rest ih =>
    intro c h
    obtain ⟨ts, ans⟩ := r
    show saveSeq headers (Option.some (save_to_csv (Option.some c) ts headers ans)) rest = _
    have hsave : save_to_csv (Option.some c) ts headers ans = c ++ csvRow (ts :: ans) := by
      show repairNewline c ++ csvRow (ts :: ans) = c ++ csvRow (ts :: ans)
      rw [repairNewline_ends c h]
    rw [hsave, ih (c ++ csvRow (ts :: ans)) (append_csvRow_last c (ts :: ans))]
    show _ = Option.some (c ++ (csvRow (ts :: ans) ++ concatRows rest))
    rw [String.append_assoc]

/-- C9: starting from a non-existent file, a sequence of saves produces
contents consisting of the header row `Timestamp` followed by the field
headers — written exactly once, by the first save only — followed by one
comma-delimited data row per save whose first column is the rendered
timestamp and whose remaining columns are the answers in header order;
a save against an existing file appends only its data row (after the
trailing-newline repair); and every rendered timestamp has the shape
`YYYY-MM-DD HH:MM:SS`. -/
theorem save_to_csv_flat_file_format (headers : List String)
    (entries : List (Clock × List String)) (hne : entries ≠ [])
    (hb : ∀ e ∈ entries, clockBounds e.1) :
    saveSeq headers Option.none (entries.map (fun e => (fmtClock e.1, e.2))) =
      Option.some (csvRow ("Timestamp" :: headers) ++
        concatRows (entries.map (fun e => (fmtClock e.1, e.2)))) ∧
    (∀ c ts ans, save_to_csv (Option.some c) ts headers ans =
      repairNewline c ++ csvRow (ts :: ans)) ∧
    (∀ e ∈ entries, timestampFormatted (fmtClock e.1)) := by
  refine ⟨?_, fun c ts ans => rfl, fun e he => timestampFormatted_fmtClock e.1 (hb e he)⟩
  cases entries with
  | nil => exact absurd rfl hne
  | cons e rest =>
    show saveSeq headers
        (Option.some (save_to_csv Option.none (fmtClock e.1) headers e.2))
        (rest.map (fun e => (fmtClock e.1, e.2))) = _
    have h1 : save_to_csv Option.none (fmtClock e.1) headers e.2 =
        csvRow ("Timestamp" :: headers) ++ csvRow (fmtClock e.1 :: e.2) := rfl
    rw [h1, saveSeq_from_existing headers _ _
      (append_csvRow_last (csvRow ("Timestamp" :: headers)) (fmtClock e.1 :: e.2))]
    show _ = Option.some (csvRow ("Timestamp" :: headers) ++
      (csvRow (fmtClock e.1 :: e.2) ++ concatRows (rest.map (fun e => (fmtClock e.1, e.2)))))
    rw [String.append_assoc]

/-- Witness for C9 at a concrete two-entry save sequence. -/
theorem save_to_csv_flat_file_format_witness :
    (saveSeq ["Amount"] Option.none
      ([(Clock.mk 2025 1 16 13 0 5, ["50"]), (Clock.mk 2025 1 16 13 30 0, ["100"])].map
        (fun e => (fmtClock e.1, e.2))) =
      Option.some (csvRow ("Timestamp" :: ["Amount"]) ++
        concatRows ([(Clock.mk 2025 1 16 13 0 5, ["50"]),
          (Clock.mk 2025 1 16 13 30 0, ["100"])].map (fun e => (fmtClock e.1, e.2))))) ∧
    (∀ c ts ans, save_to_csv (Option.some c) ts ["Amount"] ans =
      repairNewline c ++ csvRow (ts :: ans)) ∧
    (∀ e ∈ [(Clock.mk 2025 1 16 13 0 5, ["50"]), (Clock.mk 2025 1 16 13 30 0, ["100"])],
      timestampFormatted (fmtClock e.1)) :=
  save_to_csv_flat_file_format ["Amount"]
    [(Clock.mk 2025 1 16 13 0 5, ["50"]), (Clock.mk 2025 1 16 13 30 0, ["100"])]
    (by decide) (by decide)

end Clicount
